import Mathlib

/-!
# PixelLens signed-URL cache and gallery loader: a verification development

This file gives a shallow embedding of the caching-and-fetch core of the
PixelLens photo gallery (`src/App.jsx`) and proves properties about it.

Embedding conventions:
* A JavaScript `Map` with string keys is modelled as an association list
  `List (String × α)` with `Map.get`/`Map.set` semantics (`jsGet`, `jsSet`):
  `set` updates an existing key in place (keeping the insertion position) and
  appends an unknown key at the end, exactly as `Map.set` does.
* Epoch-millisecond timestamps (`Date.now()`) are `Int`.
* Asynchronous host calls (`getSignedUrl`, `s3Client.send`,
  `localStorage.setItem`) are external collaborators; each is modelled by an
  explicit outcome parameter (`Except`/`Option`/`Bool`) supplied to the
  embedded function, and a fulfilled/rejected promise becomes
  `Except.ok`/`Except.error`.
* A thrown-and-not-caught JavaScript exception is an `Except.error` result;
  a function whose model returns a plain value (no `Except`) cannot throw,
  mirroring source-level `try`/`catch` blocks that swallow every error.
* `console.error` calls are collected in a `List String` log output (the
  messages are abbreviations of the source's format strings).
-/

/-- `IMAGE_URL_EXPIRATION` from `src/App.jsx` line 55: 3,600,000 ms. -/
def IMAGE_URL_EXPIRATION : Int := 3600000

/-- A cache entry `{ url, timestamp }` as stored by `getImageUrl`
(`src/App.jsx` lines 186-189). -/
structure CacheEntry where
  url : String
  timestamp : Int
deriving DecidableEq, Repr

/-- The in-memory state of the `Map` built by `createPersistentImageCache`
(`src/App.jsx` line 29), with well-shaped entries. -/
abbrev CacheState := List (String × CacheEntry)

/-- `Map.prototype.get` on a string-keyed map: first (unique) binding. -/
def jsGet {α : Type} : List (String × α) → String → Option α
  | [], _ => none
  | p :: ps, k => if p.1 = k then some p.2 else jsGet ps k

/-- `Map.prototype.set`: overwrite an existing binding in place, otherwise
append the new binding at the end (insertion order is preserved). -/
def jsSet {α : Type} : List (String × α) → String → α → List (String × α)
  | [], k, v => [(k, v)]
  | p :: ps, k, v => if p.1 = k then (k, v) :: ps else p :: jsSet ps k v

/-- A JavaScript runtime error reaching the caller. -/
inductive JsErr where
  | typeError
deriving DecidableEq, Repr

/-! ## The signed-URL resolution pipeline (`getImageUrl`, lines 168-198) -/

/-- Outcome of one `getImageUrl(key)` call: the returned value, the cache
state after the call, the signing requests issued during the call (recorded
as key together with the requested `expiresIn` seconds), and the
`console.error` log. -/
structure ResolveResult where
  result : Option String
  cache : CacheState
  requests : List (String × Nat)
  log : List String
deriving DecidableEq, Repr

/-- The `try` block of `getImageUrl` (`src/App.jsx` lines 178-195): build a
`GetObjectCommand`, request a signed URL with `expiresIn: 3600`, and on
success store `{ url, timestamp: Date.now() }` and return the url; a rejected
signing promise is caught, logged, and `null` is returned. `sign` is the
outcome of the external `getSignedUrl` call; `now` is the `Date.now()` value
read when storing the fresh entry. -/
def signAndStore (cache : CacheState) (key : String) (now : Int)
    (sign : Except String String) : ResolveResult :=
  match sign with
  | .ok url =>
    ⟨some url, jsSet cache key ⟨url, now⟩, [(key, 3600)], []⟩
  | .error e =>
    ⟨none, cache, [(key, 3600)], ["Error getting URL for " ++ key ++ ": " ++ e]⟩

/-- `getImageUrl` (`src/App.jsx` lines 168-198). `now1` is the `Date.now()`
value read in the freshness check (line 173); `now2` the one read when the
fresh entry is stored (line 188). A cached entry is an object, hence truthy,
so the `cachedEntry &&` guard is exactly the `some` case of the lookup. -/
def getImageUrl (cache : CacheState) (key : String) (now1 now2 : Int)
    (sign : Except String String) : ResolveResult :=
  match jsGet cache key with
  | some cachedEntry =>
    if now1 - cachedEntry.timestamp < IMAGE_URL_EXPIRATION then
      ⟨some cachedEntry.url, cache, [], []⟩
    else
      signAndStore cache key now2 sign
  | none => signAndStore cache key now2 sign

/-! ## The expiration sweep (`cleanupCache`, lines 57-65)

`cleanupCache` iterates `Array.from(imageUrlCache.keys())` and calls
`imageUrlCache.delete(key)` on entries older than `IMAGE_URL_EXPIRATION`.
But `imageUrlCache` is the object literal returned by
`createPersistentImageCache` (lines 40-51), whose own properties are exactly
`get`, `set`, `has` and `clear`.  Reading a missing property yields
`undefined`, and calling `undefined` throws a `TypeError`. -/

/-- The property names the cache wrapper object defines
(`src/App.jsx` lines 40-51). -/
def cacheApiMethods : List String := ["get", "set", "has", "clear"]

/-- `cleanupCache` (`src/App.jsx` lines 57-65).  The body that the source
spells out — keep exactly the entries with `now - entry.timestamp`
not greater than `IMAGE_URL_EXPIRATION` (the guard on line 61 is strict
`>`) — runs only if the wrapper actually had `keys` and `delete` methods;
otherwise the method call on `undefined` throws. -/
def cleanupCache (cache : CacheState) (now : Int) : Except JsErr CacheState :=
  if "keys" ∈ cacheApiMethods ∧ "delete" ∈ cacheApiMethods then
    .ok (cache.filter fun p => !(now - p.2.timestamp > IMAGE_URL_EXPIRATION))
  else
    .error .typeError

/-! ## A model of the host JSON layer

`loadCache`/`saveCache` (lines 19-38) delegate serialization to the host
functions `JSON.parse` and `JSON.stringify`; the cache construction also uses
`Object.entries`, `Object.fromEntries` and the `Map` constructor.  These are
external collaborators, modelled here at the level the program exercises
them:

* JSON values are `Json` below; numbers are restricted to integers (the only
  numbers the program ever serializes are epoch-millisecond timestamps).
  Number syntax with fractions or exponents, `\uXXXX` string escapes,
  insignificant whitespace, and the `\u...` escaping of control characters by
  `JSON.stringify` are outside the model: none of the inputs any theorem
  below touches uses them, and the string-valued theorems carry a
  `plainStr` hypothesis confining them to strings the model covers exactly.
* `JSON.parse` is `jsonParse`, a fuelled recursive-descent reader of the
  standard grammar (fuel `length + 1` always suffices: every recursive call
  consumes at least one character first).
-/

/-- A JSON value (with integer numerals). -/
inductive Json where
  | null
  | bool (b : Bool)
  | num (n : Int)
  | str (s : String)
  | arr (items : List Json)
  | obj (members : List (String × Json))

/-- Characters that `JSON.stringify` emits verbatim inside a string literal
and that close neither the literal nor an escape: everything printable other
than `"` and `\`.  Theorems about serialized strings assume all their
characters are plain. -/
def plainChar (c : Char) : Bool :=
  c != '"' && c != '\\' && decide (32 ≤ c.toNat)

/-- Every character of `s` is `plainChar`. -/
def plainStr (s : String) : Bool := s.data.all plainChar

/-- String-literal escaping performed by `JSON.stringify` (quote and
backslash; control characters are outside the model's coverage). -/
def escChar (c : Char) : List Char :=
  if c = '"' then ['\\', '"'] else if c = '\\' then ['\\', '\\'] else [c]

/-- Decimal digits of `n`, most significant first, as printed by the host. -/
def natChars (n : Nat) : List Char :=
  if n = 0 then ['0'] else ((Nat.digits 10 n).map Nat.digitChar).reverse

/-- The decimal rendering of an integer JSON numeral. -/
def intChars (n : Int) : List Char :=
  if n < 0 then '-' :: natChars n.natAbs else natChars n.toNat

/-- Resolve a backslash escape inside a JSON string literal. -/
def unescChar (c : Char) : Option Char :=
  if c = '"' then some '"'
  else if c = '\\' then some '\\'
  else if c = '/' then some '/'
  else if c = 'n' then some '\n'
  else if c = 't' then some '\t'
  else if c = 'r' then some '\r'
  else if c = 'b' then some (Char.ofNat 8)
  else if c = 'f' then some (Char.ofNat 12)
  else none

/-- Read the body of a JSON string literal (the opening quote already
consumed) up to and including the closing quote. -/
def parseStrChars : List Char → Option (List Char × List Char)
  | [] => none
  | '"' :: rest => some ([], rest)
  | ['\\'] => none
  | '\\' :: e :: rest =>
    match unescChar e with
    | some c' => (parseStrChars rest).map fun p => (c' :: p.1, p.2)
    | none => none
  | c :: rest => (parseStrChars rest).map fun p => (c :: p.1, p.2)

/-- Numeric value of a decimal digit character. -/
def digitVal (c : Char) : Nat := c.toNat - '0'.toNat

/-- Consume a maximal run of decimal digits, accumulating their value. -/
def parseNatAux : List Char → Nat → Nat × List Char
  | [], acc => (acc, [])
  | c :: rest, acc =>
    if c.isDigit then parseNatAux rest (acc * 10 + digitVal c) else (acc, c :: rest)

/-- Whether the first character is a decimal digit. -/
def headIsDigit : List Char → Bool
  | [] => false
  | c :: _ => c.isDigit

/-- Read an integer JSON numeral: optional minus sign, then digits, with the
JSON prohibition of superfluous leading zeros. -/
def parseNum : List Char → Option (Int × List Char)
  | [] => none
  | c :: rest =>
    if c = '-' then
      match rest with
      | [] => none
      | d :: rest' =>
        if d.isDigit then
          if d = '0' && headIsDigit rest' then none
          else
            let p := parseNatAux (d :: rest') 0
            some (-(p.1 : Int), p.2)
        else none
    else if c.isDigit then
      if c = '0' && headIsDigit rest then none
      else
        let p := parseNatAux (c :: rest) 0
        some ((p.1 : Int), p.2)
    else none

/-- Require the exact characters `expected` as a prefix. -/
def expectChars : List Char → List Char → Option (List Char)
  | [], cs => some cs
  | _ :: _, [] => none
  | e :: es, c :: cs => if c = e then expectChars es cs else none

mutual

/-- Read one JSON value.  Each recursive call spends one unit of fuel and
has already consumed at least one character, so fuel `length + 1` never runs
out on accepted input. -/
def parseVal : Nat → List Char → Option (Json × List Char)
  | 0, _ => none
  | fuel + 1, cs =>
    match cs with
    | [] => none
    | c :: rest =>
      if c = '"' then (parseStrChars rest).map fun p => (.str ⟨p.1⟩, p.2)
      else if c = '{' then
        match rest with
        | [] => none
        | c1 :: rest1 =>
          if c1 = '}' then some (.obj [], rest1)
          else (parseMembers fuel (c1 :: rest1)).map fun p => (.obj p.1, p.2)
      else if c = '[' then
        match rest with
        | [] => none
        | c1 :: rest1 =>
          if c1 = ']' then some (.arr [], rest1)
          else (parseItems fuel (c1 :: rest1)).map fun p => (.arr p.1, p.2)
      else if c = 'n' then (expectChars ['u', 'l', 'l'] rest).map fun r => (.null, r)
      else if c = 't' then (expectChars ['r', 'u', 'e'] rest).map fun r => (.bool true, r)
      else if c = 'f' then (expectChars ['a', 'l', 's', 'e'] rest).map fun r => (.bool false, r)
      else (parseNum (c :: rest)).map fun p => (.num p.1, p.2)

/-- Read one or more `"key": value` members followed by the closing `}`. -/
def parseMembers : Nat → List Char → Option (List (String × Json) × List Char)
  | 0, _ => none
  | fuel + 1, cs =>
    match cs with
    | [] => none
    | c :: rest =>
      if c = '"' then
        match parseStrChars rest with
        | none => none
        | some (k, rest1) =>
          match rest1 with
          | [] => none
          | c1 :: rest2 =>
            if c1 = ':' then
              match parseVal fuel rest2 with
              | none => none
              | some (v, rest3) =>
                match rest3 with
                | [] => none
                | c2 :: rest4 =>
                  if c2 = ',' then
                    (parseMembers fuel rest4).map fun p => ((⟨k⟩, v) :: p.1, p.2)
                  else if c2 = '}' then some ([(⟨k⟩, v)], rest4)
                  else none
            else none
      else none

/-- Read one or more array items followed by the closing `]`. -/
def parseItems : Nat → List Char → Option (List Json × List Char)
  | 0, _ => none
  | fuel + 1, cs =>
    match parseVal fuel cs with
    | none => none
    | some (v, rest) =>
      match rest with
      | [] => none
      | c :: rest' =>
        if c = ',' then (parseItems fuel rest').map fun p => (v :: p.1, p.2)
        else if c = ']' then some ([v], rest')
        else none

end

/-- `JSON.parse`: read one value consuming the whole text; anything else is
a `SyntaxError`, reported as `none`. -/
def jsonParse (s : String) : Option Json :=
  match parseVal (s.data.length + 1) s.data with
  | some (j, []) => some j
  | _ => none

/-! ## `Object.entries`, `Object.fromEntries`, and the `Map` constructor -/

/-- Build a property map from a pair list by repeated `jsSet`: for duplicate
keys the first occurrence keeps its position and the last value wins.  This
is both how a parsed object literal's properties settle and what
`new Map(pairs)` does. -/
def mapFromPairs (ps : List (String × Json)) : List (String × Json) :=
  ps.foldl (fun m p => jsSet m p.1 p.2) []

/-- `Object.entries` on an arbitrary value, as called on line 29: throws a
`TypeError` on `null`, returns index/character pairs on a string, index
pairs on an array, `[]` on other primitives, and the own enumerable
properties of an object. -/
def jsEntries : Json → Except JsErr (List (String × Json))
  | .null => .error .typeError
  | .bool _ => .ok []
  | .num _ => .ok []
  | .str s => .ok (s.data.enum.map fun p => (toString p.1, Json.str ⟨[p.2]⟩))
  | .arr items => .ok (items.enum.map fun p => (toString p.1, p.2))
  | .obj ms => .ok (mapFromPairs ms)

/-! ## Cache construction and persistence (`createPersistentImageCache`,
lines 16-52) -/

/-- `loadCache` (lines 19-27): read the persisted record; `savedCache ?
JSON.parse(savedCache) : {}` makes an absent (`null`) or empty string yield
`{}` without logging, while a parse failure is caught and logged and `{}` is
returned.  Returns the value handed to `Object.entries` plus the log. -/
def loadCache (stored : Option String) : Json × List String :=
  match stored with
  | none => (Json.obj [], [])
  | some s =>
    if s = "" then (Json.obj [], [])
    else
      match jsonParse s with
      | some j => (j, [])
      | none => (Json.obj [], ["Error loading cache"])

/-- The constructed cache: the `Map` contents (raw JSON values, exactly as
deserialized) and the log emitted during construction. -/
structure CacheInit where
  cache : List (String × Json)
  log : List String

/-- Line 29, `const cache = new Map(Object.entries(loadCache()))`: this runs
outside `loadCache`'s `try`, so a `TypeError` from `Object.entries` escapes
the construction. -/
def createPersistentImageCache (stored : Option String) : Except JsErr CacheInit :=
  match jsEntries (loadCache stored).1 with
  | .error e => .error e
  | .ok ps => .ok ⟨mapFromPairs ps, (loadCache stored).2⟩

/-- The JSON value `getImageUrl` stores for a cache entry and that
`Object.fromEntries` exposes to `JSON.stringify`. -/
def entryToJson (e : CacheEntry) : Json :=
  .obj [("url", .str e.url), ("timestamp", .num e.timestamp)]

/-- The cache mapping as a raw-JSON property list (the image of the
well-shaped state inside the constructed `Map`). -/
def cacheToJsonPairs (m : CacheState) : List (String × Json) :=
  m.map fun p => (p.1, entryToJson p.2)

/-- `JSON.stringify` applied to one `{ url, timestamp }` entry: the
characters of `{"url":"<url escaped>","timestamp":<decimal>}`. -/
def entryJsonChars (e : CacheEntry) : List Char :=
  '{' :: '"' :: 'u' :: 'r' :: 'l' :: '"' :: ':' :: '"' ::
    (e.url.data.flatMap escChar ++
      '"' :: ',' :: '"' :: 't' :: 'i' :: 'm' :: 'e' :: 's' :: 't' :: 'a' :: 'm' ::
        'p' :: '"' :: ':' :: (intChars e.timestamp ++ ['}']))

/-- The comma-separated members of the serialized cache object: for each
binding the characters of `"<key escaped>":<entry>`. -/
def membersChars : CacheState → List Char
  | [] => []
  | [p] =>
    '"' :: (p.1.data.flatMap escChar ++ '"' :: ':' :: entryJsonChars p.2)
  | p :: ps =>
    '"' :: (p.1.data.flatMap escChar ++ '"' :: ':' ::
      (entryJsonChars p.2 ++ ',' :: membersChars ps))

/-- `JSON.stringify(Object.fromEntries(cache))` (lines 33-34), spelled out on
the one value shape the program ever persists: the text
`{"k1":{"url":"u1","timestamp":t1},...}`. -/
def stringifyCache (m : CacheState) : String :=
  String.mk ('{' :: (membersChars m ++ ['}']))

/-- `saveCache` (lines 31-38): serialize the full mapping and write it with
`localStorage.setItem`; a rejected write (`persistFails`, e.g. quota
exceeded) is caught and logged, leaving the stored record as it was.
Returns the stored record after the call and the log. -/
def saveCache (cache : CacheState) (stored : Option String) (persistFails : Bool) :
    Option String × List String :=
  if persistFails then (stored, ["Error saving cache"])
  else (some (stringifyCache cache), [])

/-- The wrapper's `set` (lines 42-45): write to the in-memory `Map`, then
persist the full mapping.  Returns the new in-memory state together with
`saveCache`'s outcome. -/
def cacheSet (cache : CacheState) (stored : Option String) (persistFails : Bool)
    (key : String) (value : CacheEntry) : CacheState × (Option String × List String) :=
  let cache' := jsSet cache key value
  (cache', saveCache cache' stored persistFails)

/-! ## The gallery loader (`loadImagesFromS3`, lines 221-259) -/

/-- One element of `response.Contents`: object key and last-modified time
(epoch ms, the value of `object.LastModified.getTime()`). -/
structure S3Object where
  key : String
  lastModified : Int
deriving DecidableEq, Repr

/-- A display record `{ id, url, lastModified }` (lines 240-245). -/
structure ImageRecord where
  id : String
  url : String
  lastModified : Int
deriving DecidableEq, Repr

/-- The ordering used by the sort on line 251:
`(a, b) => b.lastModified.getTime() - a.lastModified.getTime()` keeps `a`
before `b` exactly when the comparator is nonpositive, i.e. descending by
`lastModified`. -/
def byLastModifiedDesc (a b : ImageRecord) : Prop :=
  b.lastModified ≤ a.lastModified

instance : DecidableRel byLastModifiedDesc := fun a b =>
  inferInstanceAs (Decidable (b.lastModified ≤ a.lastModified))

instance : IsTotal ImageRecord byLastModifiedDesc :=
  ⟨fun a b => by unfold byLastModifiedDesc; omega⟩

instance : IsTrans ImageRecord byLastModifiedDesc :=
  ⟨fun a b c hab hbc => by unfold byLastModifiedDesc at *; omega⟩

/-- Lines 237-251: map every listed object through `getImageUrl`, drop the
`null` results, and sort descending by `lastModified`.  `resolve` gives the
per-key outcome of `getImageUrl` for this load cycle (listing keys are
unique, so each key is resolved once; the concurrent `Promise.all` does not
affect which record each object contributes).  ECMAScript `Array.sort` is a
stable sort, and every stable sort for this total preorder produces the same
list, so `List.insertionSort` computes exactly its output. -/
def processListing (objects : List S3Object) (resolve : String → Option String) :
    List ImageRecord :=
  List.insertionSort byLastModifiedDesc
    (objects.filterMap fun o =>
      (resolve o.key).map fun u => ⟨o.key, u, o.lastModified⟩)

/-- The component state touched by `loadImagesFromS3`: the `images` and
`loading` `useState` cells. -/
structure GalleryState where
  images : List ImageRecord
  loading : Bool
deriving DecidableEq, Repr

/-- Result of one `loadImagesFromS3()` run: the final component state, the
`console.error` log, and the keys for which `getImageUrl` was invoked
(signing requests can only be issued inside those calls). -/
structure LoadOutcome where
  state : GalleryState
  log : List String
  resolvedKeys : List String
deriving DecidableEq, Repr

/-- `loadImagesFromS3` (`src/App.jsx` lines 221-259).  `listing` is the
outcome of the external `s3Client.send(ListObjectsV2Command)`: a rejected
promise (`.error`), a response without `Contents` (`.ok none`, the
`!response.Contents` branch), or a contents array.  The whole body is a
`try`/`catch`, so the model returns a plain value: the catch logs and clears
`loading` but leaves `images` untouched. -/
def loadImagesFromS3 (st : GalleryState)
    (listing : Except String (Option (List S3Object)))
    (resolve : String → Option String) : LoadOutcome :=
  match listing with
  | .error e =>
    ⟨⟨st.images, false⟩, ["Error loading images from S3: " ++ e], []⟩
  | .ok none => ⟨⟨[], false⟩, [], []⟩
  | .ok (some objects) =>
    ⟨⟨processListing objects resolve, false⟩, [], objects.map (·.key)⟩

/-! ## Supporting lemmas -/

theorem jsGet_jsSet_self {α : Type} (m : List (String × α)) (k : String) (v : α) :
    jsGet (jsSet m k v) k = some v := by
  induction m with
  | nil => simp [jsGet, jsSet]
  | cons p ps ih =>
    by_cases h : p.1 = k
    · simp [jsGet, jsSet, h]
    · simp [jsGet, jsSet, h, ih]

theorem jsSet_of_not_mem {α : Type} (m : List (String × α)) (k : String) (v : α)
    (h : k ∉ m.map Prod.fst) : jsSet m k v = m ++ [(k, v)] := by
  induction m with
  | nil => rfl
  | cons p ps ih =>
    simp only [List.map_cons, List.mem_cons] at h
    push_neg at h
    simp [jsSet, Ne.symm h.1, ih h.2]

theorem foldl_jsSet_of_nodup {α : Type} (ps : List (String × α)) :
    ∀ acc : List (String × α), (ps.map Prod.fst).Nodup →
      (∀ k ∈ ps.map Prod.fst, k ∉ acc.map Prod.fst) →
      ps.foldl (fun m p => jsSet m p.1 p.2) acc = acc ++ ps := by
  induction ps with
  | nil => intro acc _ _; simp
  | cons p ps ih =>
    intro acc hnd hdisj
    simp only [List.map_cons, List.nodup_cons] at hnd
    rw [List.foldl_cons, jsSet_of_not_mem acc p.1 p.2 (hdisj p.1 (by simp)),
      ih (acc ++ [(p.1, p.2)]) hnd.2]
    · simp
    · intro k hk
      simp only [List.map_append, List.mem_append, List.map_cons, List.map_nil,
        List.mem_singleton, not_or]
      exact ⟨hdisj k (by simp [hk]), by rintro rfl; exact hnd.1 hk⟩

theorem mapFromPairs_of_nodup (ps : List (String × Json))
    (h : (ps.map Prod.fst).Nodup) : mapFromPairs ps = ps := by
  simpa using foldl_jsSet_of_nodup ps [] h (by simp)

theorem plainChar_ne_quote {c : Char} (h : plainChar c = true) : c ≠ '"' := by
  simp only [plainChar, Bool.and_eq_true, bne_iff_ne] at h
  exact h.1.1

theorem plainChar_ne_backslash {c : Char} (h : plainChar c = true) : c ≠ '\\' := by
  simp only [plainChar, Bool.and_eq_true, bne_iff_ne] at h
  exact h.1.2

theorem escChar_of_plain {c : Char} (h : plainChar c = true) : escChar c = [c] := by
  simp [escChar, plainChar_ne_quote h, plainChar_ne_backslash h]

theorem flatMap_escChar_of_plain (l : List Char) (h : l.all plainChar = true) :
    l.flatMap escChar = l := by
  induction l with
  | nil => rfl
  | cons c l ih =>
    simp only [List.all_cons, Bool.and_eq_true] at h
    simp [List.flatMap_cons, escChar_of_plain h.1, ih h.2]

theorem parseStrChars_plain (l : List Char) (h : l.all plainChar = true)
    (rest : List Char) : parseStrChars (l ++ '"' :: rest) = some (l, rest) := by
  induction l with
  | nil => rfl
  | cons c l ih =>
    simp only [List.all_cons, Bool.and_eq_true] at h
    simp [parseStrChars, plainChar_ne_quote h.1, plainChar_ne_backslash h.1, ih h.2]

theorem digitVal_digitChar {d : Nat} (h : d < 10) : digitVal (Nat.digitChar d) = d := by
  interval_cases d <;> rfl

theorem isDigit_digitChar {d : Nat} (h : d < 10) : (Nat.digitChar d).isDigit = true := by
  interval_cases d <;> rfl

theorem digitChar_ne_zero_char {d : Nat} (h : d < 10) (hd : d ≠ 0) :
    Nat.digitChar d ≠ '0' := by
  interval_cases d <;> simp_all <;> decide

theorem parseNatAux_notDigit (cs : List Char) (acc : Nat) (h : headIsDigit cs = false) :
    parseNatAux cs acc = (acc, cs) := by
  cases cs with
  | nil => rfl
  | cons c rest => simp [headIsDigit] at h; simp [parseNatAux, h]

theorem parseNatAux_digits (ds : List Nat) (h : ∀ d ∈ ds, d < 10) :
    ∀ (acc : Nat) (rest : List Char),
      parseNatAux ((ds.map Nat.digitChar).reverse ++ rest) acc =
        parseNatAux rest (acc * 10 ^ ds.length + Nat.ofDigits 10 ds) := by
  induction ds with
  | nil => intro acc rest; simp [Nat.ofDigits_nil]
  | cons d ds ih =>
    intro acc rest
    have hd : d < 10 := h d (by simp)
    have hds : ∀ x ∈ ds, x < 10 := fun x hx => h x (by simp [hx])
    rw [List.map_cons, List.reverse_cons, List.append_assoc, ih hds]
    simp only [List.cons_append, List.nil_append, parseNatAux,
      isDigit_digitChar hd, if_true, digitVal_digitChar hd]
    congr 1
    rw [Nat.ofDigits_cons, List.length_cons]
    ring

theorem natChars_ne_nil (n : Nat) : natChars n ≠ [] := by
  by_cases h : n = 0
  · simp [natChars, h]
  · simp [natChars, h, Nat.digits_ne_nil_iff_ne_zero.mpr h]

theorem natChars_all_isDigit (n : Nat) : ∀ c ∈ natChars n, c.isDigit = true := by
  by_cases h : n = 0
  · simp [natChars, h]
  · intro c hc
    simp only [natChars, h, if_false, List.mem_reverse, List.mem_map] at hc
    obtain ⟨d, hd, rfl⟩ := hc
    exact isDigit_digitChar (Nat.digits_lt_base (by norm_num) hd)

theorem natChars_head_ne_zero {n : Nat} (h : n ≠ 0) :
    ∀ c cs, natChars n = c :: cs → c ≠ '0' := by
  intro c cs hc
  have hne : Nat.digits 10 n ≠ [] := Nat.digits_ne_nil_iff_ne_zero.mpr h
  have : (natChars n).head? = some c := by rw [hc]; rfl
  rw [natChars, if_neg h, List.head?_reverse, List.getLast?_map] at this
  rw [List.getLast?_eq_getLast _ hne, Option.map_some'] at this
  have hlast := Nat.getLast_digit_ne_zero 10 h
  have hlt : (Nat.digits 10 n).getLast hne < 10 :=
    Nat.digits_lt_base (by norm_num) (List.getLast_mem hne)
  cases this
  exact digitChar_ne_zero_char hlt hlast

theorem ne_minus_of_isDigit {c : Char} (h : c.isDigit = true) : c ≠ '-' := by
  rintro rfl
  exact absurd h (by decide)

theorem parseNatAux_natChars (n : Nat) (rest : List Char) (h : headIsDigit rest = false) :
    parseNatAux (natChars n ++ rest) 0 = (n, rest) := by
  by_cases h0 : n = 0
  · subst h0
    show parseNatAux ('0' :: rest) 0 = (0, rest)
    rw [parseNatAux]
    simp only [show ('0').isDigit = true from rfl, if_true]
    rw [parseNatAux_notDigit rest _ h]
    rfl
  · have hnc : natChars n = ((Nat.digits 10 n).map Nat.digitChar).reverse := by
      simp [natChars, h0]
    rw [hnc, parseNatAux_digits (Nat.digits 10 n)
      (fun d hd => Nat.digits_lt_base (by norm_num) hd) 0 rest,
      parseNatAux_notDigit rest _ h]
    simp [Nat.ofDigits_digits]

theorem parseNum_intChars (n : Int) (rest : List Char) (h : headIsDigit rest = false) :
    parseNum (intChars n ++ rest) = some (n, rest) := by
  by_cases hneg : n < 0
  · obtain ⟨d, ds, hds⟩ : ∃ d ds, natChars n.natAbs = d :: ds := by
      cases hnc : natChars n.natAbs with
      | nil => exact absurd hnc (natChars_ne_nil _)
      | cons d ds => exact ⟨d, ds, rfl⟩
    have hdig : d.isDigit = true :=
      natChars_all_isDigit n.natAbs d (by rw [hds]; exact List.mem_cons_self d ds)
    have habs : n.natAbs ≠ 0 := by omega
    have hd0 : d ≠ '0' := natChars_head_ne_zero habs d ds hds
    have hp : parseNatAux (d :: (ds ++ rest)) 0 = (n.natAbs, rest) := by
      rw [← List.cons_append, ← hds]
      exact parseNatAux_natChars n.natAbs rest h
    have hn : -((n.natAbs : Nat) : Int) = n := by omega
    rw [intChars, if_pos hneg, List.cons_append, hds, List.cons_append, parseNum.eq_def]
    simp [hdig, hd0, hp, hn]
    rw [abs_of_neg hneg, neg_neg]
  · obtain ⟨d, ds, hds⟩ : ∃ d ds, natChars n.toNat = d :: ds := by
      cases hnc : natChars n.toNat with
      | nil => exact absurd hnc (natChars_ne_nil _)
      | cons d ds => exact ⟨d, ds, rfl⟩
    have hdig : d.isDigit = true :=
      natChars_all_isDigit n.toNat d (by rw [hds]; exact List.mem_cons_self d ds)
    have hguard : (decide (d = '0') && headIsDigit (ds ++ rest)) = false := by
      by_cases h0 : n.toNat = 0
      · have h1 : d :: ds = ['0'] := by rw [← hds, h0]; rfl
        have hd : ds = [] := by injection h1 with _ h2
        subst hd
        simp only [List.nil_append, h, Bool.and_false]
      · have hd0 : d ≠ '0' := natChars_head_ne_zero h0 d ds hds
        simp [hd0]
    have hp : parseNatAux (d :: (ds ++ rest)) 0 = (n.toNat, rest) := by
      rw [← List.cons_append, ← hds]
      exact parseNatAux_natChars n.toNat rest h
    have hn : ((n.toNat : Nat) : Int) = n := by omega
    rw [intChars, if_neg hneg, hds, List.cons_append, parseNum.eq_def]
    simp [ne_minus_of_isDigit hdig, hdig, hguard, hp, hn]

theorem parseStrChars_url (rest : List Char) :
    parseStrChars ('u' :: 'r' :: 'l' :: '"' :: rest) = some (['u', 'r', 'l'], rest) :=
  parseStrChars_plain ['u', 'r', 'l'] (by decide) rest

theorem parseStrChars_timestamp (rest : List Char) :
    parseStrChars
        ('t' :: 'i' :: 'm' :: 'e' :: 's' :: 't' :: 'a' :: 'm' :: 'p' :: '"' :: rest) =
      some (['t', 'i', 'm', 'e', 's', 't', 'a', 'm', 'p'], rest) :=
  parseStrChars_plain ['t', 'i', 'm', 'e', 's', 't', 'a', 'm', 'p'] (by decide) rest

theorem digit_disequalities {c : Char} (h : c.isDigit = true) :
    c ≠ '"' ∧ c ≠ '{' ∧ c ≠ '[' ∧ c ≠ 'n' ∧ c ≠ 't' ∧ c ≠ 'f' := by
  refine ⟨?_, ?_, ?_, ?_, ?_, ?_⟩ <;> (rintro rfl; exact absurd h (by decide))

theorem parseVal_num (n : Int) (f : Nat) (rest : List Char) (h : headIsDigit rest = false) :
    parseVal (f + 1) (intChars n ++ rest) = some (.num n, rest) := by
  have hnum := parseNum_intChars n rest h
  by_cases hneg : n < 0
  · rw [intChars, if_pos hneg] at hnum ⊢
    simp only [List.cons_append] at hnum ⊢
    simp [parseVal, hnum]
  · obtain ⟨d, ds, hds⟩ : ∃ d ds, natChars n.toNat = d :: ds := by
      cases hnc : natChars n.toNat with
      | nil => exact absurd hnc (natChars_ne_nil _)
      | cons d ds => exact ⟨d, ds, rfl⟩
    have hdig : d.isDigit = true :=
      natChars_all_isDigit n.toNat d (by rw [hds]; exact List.mem_cons_self d ds)
    obtain ⟨h1, h2, h3, h4, h5, h6⟩ := digit_disequalities hdig
    rw [intChars, if_neg hneg, hds] at hnum ⊢
    simp only [List.cons_append] at hnum ⊢
    simp [parseVal, h1, h2, h3, h4, h5, h6, hnum]

theorem parseVal_str (g : Nat) (s : String) (hs : plainStr s = true) (rest : List Char) :
    parseVal (g + 1) ('"' :: (s.data ++ '"' :: rest)) = some (.str s, rest) := by
  simp [parseVal, parseStrChars_plain s.data hs]

theorem parseVal_obj_quote (g : Nat) (rest : List Char) :
    parseVal (g + 1) ('{' :: '"' :: rest) =
      (parseMembers g ('"' :: rest)).map fun p => (.obj p.1, p.2) := by
  simp [parseVal]

theorem parseMembers_step_cons (g : Nat) (k : List Char) (hk : k.all plainChar = true)
    (rest2 : List Char) (v : Json) (rest4 : List Char)
    (hv : parseVal g rest2 = some (v, ',' :: rest4)) :
    parseMembers (g + 1) ('"' :: (k ++ '"' :: ':' :: rest2)) =
      (parseMembers g rest4).map fun p => ((⟨k⟩, v) :: p.1, p.2) := by
  simp [parseMembers, parseStrChars_plain k hk, hv]

theorem parseMembers_step_last (g : Nat) (k : List Char) (hk : k.all plainChar = true)
    (rest2 : List Char) (v : Json) (rest4 : List Char)
    (hv : parseVal g rest2 = some (v, '}' :: rest4)) :
    parseMembers (g + 1) ('"' :: (k ++ '"' :: ':' :: rest2)) = some ([(⟨k⟩, v)], rest4) := by
  simp [parseMembers, parseStrChars_plain k hk, hv]

theorem parseMembers_url_cons (g : Nat) (rest2 : List Char) (v : Json) (rest4 : List Char)
    (hv : parseVal g rest2 = some (v, ',' :: rest4)) :
    parseMembers (g + 1) ('"' :: 'u' :: 'r' :: 'l' :: '"' :: ':' :: rest2) =
      (parseMembers g rest4).map fun p => (("url", v) :: p.1, p.2) :=
  parseMembers_step_cons g ['u', 'r', 'l'] (by decide) rest2 v rest4 hv

theorem parseMembers_timestamp_last (g : Nat) (rest2 : List Char) (v : Json)
    (rest4 : List Char) (hv : parseVal g rest2 = some (v, '}' :: rest4)) :
    parseMembers (g + 1)
        ('"' :: 't' :: 'i' :: 'm' :: 'e' :: 's' :: 't' :: 'a' :: 'm' :: 'p' :: '"' :: ':' :: rest2) =
      some ([("timestamp", v)], rest4) :=
  parseMembers_step_last g ['t', 'i', 'm', 'e', 's', 't', 'a', 'm', 'p'] (by decide)
    rest2 v rest4 hv

theorem parseVal_entry (e : CacheEntry) (hurl : plainStr e.url = true)
    (fuel : Nat) (rest : List Char) (hfuel : 4 ≤ fuel) :
    parseVal fuel (entryJsonChars e ++ rest) = some (entryToJson e, rest) := by
  obtain ⟨f, rfl⟩ : ∃ f, fuel = f + 1 + 1 + 1 + 1 := ⟨fuel - 4, by omega⟩
  have hesc : e.url.data.flatMap escChar = e.url.data := flatMap_escChar_of_plain _ hurl
  have hv1 : parseVal (f + 1 + 1)
      ('"' :: (e.url.data ++ '"' :: ',' :: '"' :: 't' :: 'i' :: 'm' :: 'e' :: 's' :: 't' ::
        'a' :: 'm' :: 'p' :: '"' :: ':' :: (intChars e.timestamp ++ '}' :: rest))) =
      some (.str e.url,
        ',' :: '"' :: 't' :: 'i' :: 'm' :: 'e' :: 's' :: 't' :: 'a' :: 'm' :: 'p' :: '"' ::
          ':' :: (intChars e.timestamp ++ '}' :: rest)) :=
    parseVal_str (f + 1) e.url hurl _
  have hv2 : parseVal (f + 1) (intChars e.timestamp ++ '}' :: rest) =
      some (.num e.timestamp, '}' :: rest) := parseVal_num e.timestamp f ('}' :: rest) rfl
  simp only [entryJsonChars, hesc, List.cons_append, List.append_assoc, List.nil_append]
  rw [parseVal_obj_quote]
  rw [parseMembers_url_cons _ _ _ _ hv1]
  rw [parseMembers_timestamp_last _ _ _ _ hv2]
  rfl

theorem parseMembers_cacheMembers (m : CacheState)
    (hplain : ∀ p ∈ m, plainStr p.1 = true ∧ plainStr p.2.url = true) :
    m ≠ [] → ∀ fuel rest, m.length + 4 ≤ fuel →
      parseMembers fuel (membersChars m ++ '}' :: rest) =
        some (cacheToJsonPairs m, rest) := by
  induction m with
  | nil => intro hm; cases hm rfl
  | cons p ps ih =>
    intro _ fuel rest hfuel
    obtain ⟨g, rfl⟩ : ∃ g, fuel = g + 1 := ⟨fuel - 1, by omega⟩
    have hplain_p := hplain p (by simp)
    have hesc : p.1.data.flatMap escChar = p.1.data :=
      flatMap_escChar_of_plain _ hplain_p.1
    cases ps with
    | nil =>
      have hv : parseVal g (entryJsonChars p.2 ++ '}' :: rest) =
          some (entryToJson p.2, '}' :: rest) :=
        parseVal_entry p.2 hplain_p.2 g ('}' :: rest) (by simp at hfuel; omega)
      simp only [membersChars, hesc, List.cons_append, List.append_assoc, List.nil_append]
      rw [parseMembers_step_last _ _ hplain_p.1 _ _ _ hv]
      rfl
    | cons q qs =>
      have hv : parseVal g
          (entryJsonChars p.2 ++ ',' :: (membersChars (q :: qs) ++ '}' :: rest)) =
          some (entryToJson p.2, ',' :: (membersChars (q :: qs) ++ '}' :: rest)) :=
        parseVal_entry p.2 hplain_p.2 g _ (by simp at hfuel; omega)
      have hih := ih (fun x hx => hplain x (by simp [hx])) (by simp) g rest
        (by simp at hfuel ⊢; omega)
      simp only [membersChars, hesc, List.cons_append, List.append_assoc, List.nil_append]
      rw [parseMembers_step_cons _ _ hplain_p.1 _ _ _ hv, hih]
      rfl

theorem length_membersChars (m : CacheState) (hm : m ≠ []) :
    m.length + 2 ≤ (membersChars m).length := by
  induction m with
  | nil => cases hm rfl
  | cons p ps ih =>
    cases ps with
    | nil =>
      simp only [membersChars, List.length_cons, List.length_append, List.length_nil]
      omega
    | cons q qs =>
      have := ih (by simp)
      simp only [membersChars, List.length_cons, List.length_append,
        List.length_nil] at this ⊢
      omega

theorem jsonParse_eq (s : String) (j : Json)
    (h : parseVal (s.data.length + 1) s.data = some (j, [])) : jsonParse s = some j := by
  unfold jsonParse
  rw [h]

theorem jsonParse_stringifyCache (m : CacheState)
    (hplain : ∀ p ∈ m, plainStr p.1 = true ∧ plainStr p.2.url = true) :
    jsonParse (stringifyCache m) = some (.obj (cacheToJsonPairs m)) := by
  cases m with
  | nil => rfl
  | cons p ps =>
    apply jsonParse_eq
    obtain ⟨t, ht⟩ : ∃ t, membersChars (p :: ps) = '"' :: t := by
      cases ps <;> exact ⟨_, rfl⟩
    have hlen := length_membersChars (p :: ps) (by simp)
    have hmem := parseMembers_cacheMembers (p :: ps) hplain (by simp)
      ((stringifyCache (p :: ps)).data.length) [] (by
        show (p :: ps).length + 4 ≤ ('{' :: (membersChars (p :: ps) ++ ['}'])).length
        simp only [List.length_cons, List.length_append]
        simp at hlen ⊢
        omega)
    show parseVal (('{' :: (membersChars (p :: ps) ++ ['}'])).length + 1)
      ('{' :: (membersChars (p :: ps) ++ ['}'])) = some (.obj (cacheToJsonPairs (p :: ps)), [])
    rw [ht, List.cons_append, parseVal_obj_quote, ← List.cons_append, ← ht]
    rw [show ('{' :: (membersChars (p :: ps) ++ ['}'])).length =
      (stringifyCache (p :: ps)).data.length from rfl]
    rw [hmem]
    rfl

theorem stringifyCache_ne_empty (m : CacheState) : stringifyCache m ≠ "" := by
  intro h
  have hdata : (stringifyCache m).data = ([] : List Char) := by rw [h]
  simp only [stringifyCache] at hdata
  cases hdata

theorem keys_cacheToJsonPairs (m : CacheState) :
    (cacheToJsonPairs m).map Prod.fst = m.map Prod.fst := by
  simp [cacheToJsonPairs]

theorem jsGet_cacheToJsonPairs (m : CacheState) (k : String) :
    jsGet (cacheToJsonPairs m) k = (jsGet m k).map entryToJson := by
  induction m with
  | nil => rfl
  | cons p ps ih =>
    by_cases h : p.1 = k
    · simp [cacheToJsonPairs, jsGet, h]
    · simp only [cacheToJsonPairs, List.map_cons, jsGet, h, if_false] at ih ⊢
      exact ih

/-! ## The claims -/

/-- C1: the claim states that one run of the expiration sweep removes exactly
the entries aged at least `EXPIRATION_WINDOW` and completes without throwing.
In fact the sweep never gets that far: the cache wrapper exposes no `keys` or
`delete` method, so `cleanupCache` throws a `TypeError` on every invocation,
whatever the cache state and sweep time, and removes nothing. -/
theorem cleanupCache_always_throws (cache : CacheState) (now : Int) :
    cleanupCache cache now = .error .typeError := by
  simp [cleanupCache, cacheApiMethods]

/-- C2: for every key with a cache entry younger than `IMAGE_URL_EXPIRATION`
at the check time, `getImageUrl` returns the cached url, issues no signing
request, logs nothing, and leaves the whole cache unchanged. -/
theorem getImageUrl_cache_hit (cache : CacheState) (key : String) (e : CacheEntry)
    (now1 now2 : Int) (sign : Except String String)
    (hget : jsGet cache key = some e)
    (hfresh : now1 - e.timestamp < IMAGE_URL_EXPIRATION) :
    getImageUrl cache key now1 now2 sign = ⟨some e.url, cache, [], []⟩ := by
  simp [getImageUrl, hget, hfresh]

theorem getImageUrl_cache_hit_witness :
    jsGet [("a", (⟨"u", 0⟩ : CacheEntry))] "a" = some ⟨"u", 0⟩ ∧
      (10 : Int) - (0 : Int) < IMAGE_URL_EXPIRATION ∧
      getImageUrl [("a", ⟨"u", 0⟩)] "a" 10 20 (.ok "fresh") =
        ⟨some "u", [("a", ⟨"u", 0⟩)], [], []⟩ :=
  ⟨rfl, by decide,
    getImageUrl_cache_hit [("a", ⟨"u", 0⟩)] "a" ⟨"u", 0⟩ 10 20 (.ok "fresh") rfl (by decide)⟩

/-- C3: for every key whose entry is absent or aged at least
`IMAGE_URL_EXPIRATION` at the check time, `getImageUrl` issues exactly one
signing request with requested validity 3600 seconds (whatever the signing
outcome), and on success stores `{url, timestamp: now}` — `now` being the
resolution time — overwriting any prior entry for the key, and returns that
url. -/
theorem getImageUrl_miss_success (cache : CacheState) (key : String)
    (now1 now2 : Int) (url : String)
    (hmiss : jsGet cache key = none ∨
      ∃ e, jsGet cache key = some e ∧ IMAGE_URL_EXPIRATION ≤ now1 - e.timestamp) :
    (∀ sign, (getImageUrl cache key now1 now2 sign).requests = [(key, 3600)]) ∧
    getImageUrl cache key now1 now2 (.ok url) =
      ⟨some url, jsSet cache key ⟨url, now2⟩, [(key, 3600)], []⟩ ∧
    jsGet (jsSet cache key ⟨url, now2⟩) key = some ⟨url, now2⟩ := by
  have hbranch : ∀ sign, getImageUrl cache key now1 now2 sign = signAndStore cache key now2 sign := by
    intro sign
    rcases hmiss with h | ⟨e, he, hstale⟩
    · simp [getImageUrl, h]
    · simp [getImageUrl, he, not_lt.mpr hstale]
  refine ⟨fun sign => ?_, ?_, jsGet_jsSet_self cache key ⟨url, now2⟩⟩
  · rw [hbranch sign]
    cases sign <;> rfl
  · rw [hbranch (.ok url)]
    rfl

theorem getImageUrl_miss_success_witness :
    (∃ e, jsGet [("a", (⟨"u", 0⟩ : CacheEntry))] "a" = some e ∧
        IMAGE_URL_EXPIRATION ≤ (3600000 : Int) - e.timestamp) ∧
      getImageUrl [("a", ⟨"u", 0⟩)] "a" 3600000 3600005 (.ok "u2") =
        ⟨some "u2", [("a", ⟨"u2", 3600005⟩)], [("a", 3600)], []⟩ ∧
      jsGet [("a", (⟨"u2", 3600005⟩ : CacheEntry))] "a" = some ⟨"u2", 3600005⟩ :=
  ⟨⟨⟨"u", 0⟩, rfl, by decide⟩,
    (getImageUrl_miss_success [("a", ⟨"u", 0⟩)] "a" 3600000 3600005 "u2"
      (Or.inr ⟨⟨"u", 0⟩, rfl, by decide⟩)).2.1,
    (getImageUrl_miss_success [("a", ⟨"u", 0⟩)] "a" 3600000 3600005 "u2"
      (Or.inr ⟨⟨"u", 0⟩, rfl, by decide⟩)).2.2⟩

/-- C7: for every key resolved on the miss path whose signing request fails,
`getImageUrl` logs the error, returns `none`, and leaves the cache unchanged
(no entry is written on the error path); the model's total return type
reflects that the `catch` lets no exception escape. -/
theorem getImageUrl_sign_failure (cache : CacheState) (key : String)
    (now1 now2 : Int) (err : String)
    (hmiss : jsGet cache key = none ∨
      ∃ e, jsGet cache key = some e ∧ IMAGE_URL_EXPIRATION ≤ now1 - e.timestamp) :
    getImageUrl cache key now1 now2 (.error err) =
      ⟨none, cache, [(key, 3600)],
        ["Error getting URL for " ++ key ++ ": " ++ err]⟩ := by
  rcases hmiss with h | ⟨e, he, hstale⟩
  · simp [getImageUrl, h, signAndStore]
  · simp [getImageUrl, he, not_lt.mpr hstale, signAndStore]

theorem getImageUrl_sign_failure_witness :
    jsGet ([] : CacheState) "b" = none ∧
      getImageUrl [] "b" 7 9 (.error "denied") =
        ⟨none, [], [("b", 3600)], ["Error getting URL for " ++ "b" ++ ": " ++ "denied"]⟩ :=
  ⟨rfl, getImageUrl_sign_failure [] "b" 7 9 "denied" (Or.inl rfl)⟩

/-- C4: for every listing and per-key resolution outcome, `loadImagesFromS3`
produces exactly the records of the objects whose resolution succeeded (a
permutation statement pins the multiset down), ordered descending by
`lastModified` for every pair of positions; and on the spec's two scenarios —
objects `a`, `b`, `c` last modified at 100, 200, 50 with every signing
succeeding, and the same bucket with `b`'s signing failing — it returns
`[b, a, c]` and `[a, c]` respectively. -/
theorem loadAll_sorted_and_exact :
    (∀ (objects : List S3Object) (resolve : String → Option String),
      (processListing objects resolve).Pairwise byLastModifiedDesc ∧
      (processListing objects resolve).Perm
        (objects.filterMap fun o =>
          (resolve o.key).map fun u => ⟨o.key, u, o.lastModified⟩)) ∧
    processListing [⟨"a", 100⟩, ⟨"b", 200⟩, ⟨"c", 50⟩]
        (fun k => some ("url-" ++ k)) =
      [⟨"b", "url-b", 200⟩, ⟨"a", "url-a", 100⟩, ⟨"c", "url-c", 50⟩] ∧
    processListing [⟨"a", 100⟩, ⟨"b", 200⟩, ⟨"c", 50⟩]
        (fun k => if k = "b" then none else some ("url-" ++ k)) =
      [⟨"a", "url-a", 100⟩, ⟨"c", "url-c", 50⟩] := by
  refine ⟨fun objects resolve => ⟨?_, ?_⟩, ?_, ?_⟩
  · exact List.sorted_insertionSort byLastModifiedDesc _
  · exact List.perm_insertionSort byLastModifiedDesc _
  · decide
  · decide

/-- C5: when the listing call itself rejects, `loadImagesFromS3` catches the
error, logs it, clears the loading flag, and ends with the empty image list —
`images` is left untouched by the catch handler and holds its initial value
`[]`, since the loader's one invocation (the mount effect) runs on the
freshly initialized state; the model's total return type reflects that no
exception escapes. -/
theorem loadImagesFromS3_listing_failure (b : Bool) (e : String)
    (resolve : String → Option String) :
    loadImagesFromS3 ⟨[], b⟩ (.error e) resolve =
      ⟨⟨[], false⟩, ["Error loading images from S3: " ++ e], []⟩ := rfl

/-- C8: when the listing call succeeds with no objects — `Contents` absent
(`.ok none`) or an empty contents array — `loadImagesFromS3` ends with an
empty image list, resolves no keys (hence issues no signing requests), logs
nothing, and raises no error. -/
theorem loadImagesFromS3_empty_listing (st : GalleryState)
    (resolve : String → Option String) :
    loadImagesFromS3 st (.ok none) resolve = ⟨⟨[], false⟩, [], []⟩ ∧
    loadImagesFromS3 st (.ok (some [])) resolve = ⟨⟨[], false⟩, [], []⟩ :=
  ⟨rfl, rfl⟩

/-- C9: `set(key, value)` overwrites any existing binding for the key in the
in-memory map and then persists the serialization of the full post-write
mapping; when the persistence write fails, the in-memory map still holds the
new binding, the stored record is unchanged, the failure is logged, and (the
model being a total function) no exception reaches `set`'s caller. -/
theorem cacheSet_writes_through (cache : CacheState) (stored : Option String)
    (key : String) (v : CacheEntry) :
    jsGet (jsSet cache key v) key = some v ∧
    cacheSet cache stored false key v =
      (jsSet cache key v, some (stringifyCache (jsSet cache key v)), []) ∧
    cacheSet cache stored true key v =
      (jsSet cache key v, stored, ["Error saving cache"]) :=
  ⟨jsGet_jsSet_self cache key v, rfl, rfl⟩

/-- C6: the claim states that cache construction never throws and yields an
empty, logged-about cache on absent or malformed data.  In fact the persisted
record `"null"` deserializes successfully to JSON `null` inside `loadCache`'s
`try`, and then `Object.entries(null)` on line 29 — outside any `try` —
throws a `TypeError` that escapes the construction.  (The second conjunct
records that an absent record yields an empty cache with an empty log: the
`savedCache ? ... : {}` branch does not log.) -/
theorem createPersistentImageCache_null_throws :
    createPersistentImageCache (some "null") = .error .typeError ∧
    createPersistentImageCache none = .ok ⟨[], []⟩ :=
  ⟨rfl, rfl⟩

/-- C10: persistence round-trip.  Serializing an in-memory cache mapping
exactly as `saveCache` does and then constructing a fresh cache from the same
stored record yields the same mapping (each entry reappearing as the plain
`{url, timestamp}` object `JSON.parse` rebuilds), so `get` on the new cache
agrees with `get` on the original at every key.  The hypotheses confine the
statement to what a `Map` can hold (unique keys) and to strings the JSON
model covers exactly (no quote, backslash, or control characters). -/
theorem cache_persistence_roundtrip (m : CacheState)
    (hnd : (m.map Prod.fst).Nodup)
    (hplain : ∀ p ∈ m, plainStr p.1 = true ∧ plainStr p.2.url = true) :
    createPersistentImageCache (some (stringifyCache m)) =
        .ok ⟨cacheToJsonPairs m, []⟩ ∧
      ∀ k, jsGet (cacheToJsonPairs m) k = (jsGet m k).map entryToJson := by
  have hkeys : ((cacheToJsonPairs m).map Prod.fst).Nodup := by
    rw [keys_cacheToJsonPairs]; exact hnd
  have hload : loadCache (some (stringifyCache m)) = (.obj (cacheToJsonPairs m), []) := by
    simp only [loadCache, stringifyCache_ne_empty m, if_false,
      jsonParse_stringifyCache m hplain]
  refine ⟨?_, jsGet_cacheToJsonPairs m⟩
  simp only [createPersistentImageCache, hload, jsEntries,
    mapFromPairs_of_nodup _ hkeys]

theorem cache_persistence_roundtrip_witness :
    (([("a", (⟨"https://img/1.jpg", 100⟩ : CacheEntry)),
        ("b", ⟨"v", -3⟩)].map Prod.fst).Nodup ∧
      ∀ p ∈ [("a", (⟨"https://img/1.jpg", 100⟩ : CacheEntry)), ("b", ⟨"v", -3⟩)],
        plainStr p.1 = true ∧ plainStr p.2.url = true) ∧
    createPersistentImageCache
        (some (stringifyCache [("a", ⟨"https://img/1.jpg", 100⟩), ("b", ⟨"v", -3⟩)])) =
      .ok ⟨cacheToJsonPairs [("a", ⟨"https://img/1.jpg", 100⟩), ("b", ⟨"v", -3⟩)], []⟩ :=
  ⟨⟨by decide, by decide⟩,
    (cache_persistence_roundtrip
      [("a", ⟨"https://img/1.jpg", 100⟩), ("b", ⟨"v", -3⟩)] (by decide) (by decide)).1⟩
